import Mathlib

/-!
Verification development for the CodeGraphX resource-management core:
the `DatabasePool` connection pool (src/database/connection.py), the
retry loops (src/modules/base.py, src/modules/repository.py), and the
`RequestBatcher` (src/modules/base.py).

Connections are modelled as natural-number handles.  Because every pool
operation in the source runs its whole body under `self._lock`, each
operation is atomic with respect to the others, and a pool execution is a
sequence of atomic operations on an explicit `PoolState`.
-/

/-- Error raised by `DatabasePool.get_connection`
(src/database/connection.py): the source raises a single exception class
`DatabaseError` carrying a message string; no other error kind escapes the
pool. -/
inductive AcquireErr where
  | databaseError (msg : String)
deriving DecidableEq, Repr

/-- State of `DatabasePool` (src/database/connection.py lines 26-31):
`maxConnections` is `max_connections`, `active` is `_active_connections`,
`idle` is the contents of `_connection_queue` (front of the list = next
element dequeued), and `nextId` is a fresh-handle source standing for
`sqlite3.connect` returning a brand-new object each time. -/
structure PoolState where
  maxConnections : Nat
  active : Finset Nat
  idle : List Nat
  nextId : Nat
deriving DecidableEq

/-- The empty pool produced by `DatabasePool.__init__`. -/
def initPool (maxC : Nat) : PoolState :=
  { maxConnections := maxC, active := ∅, idle := [], nextId := 0 }

/-- Embeds the creation fallthrough of `DatabasePool.get_connection`
(src/database/connection.py lines 84-92).  If `len(self._active_connections)
< self.max_connections`, `_create_connection` (lines 42-54) runs:
`createErr = none` models `sqlite3.connect` succeeding, adding a fresh
connection to the active set; `createErr = some em` models a
`sqlite3.Error` with message `em`, raised as
`DatabaseError("Failed to create connection: " ++ em)` before the active
set is touched.  At capacity, `DatabaseError("Maximum connections
reached")` is raised instead.  Either exception is re-wrapped by the
surrounding handler (lines 94-97) into
`DatabaseError("Failed to get connection: ...")`, the value modelled
here. -/
def createUnderLimit (s : PoolState) (createErr : Option String) :
    Except AcquireErr (Nat × PoolState) :=
  if s.active.card < s.maxConnections then
    match createErr with
    | none =>
        Except.ok (s.nextId,
          { s with active := insert s.nextId s.active, nextId := s.nextId + 1 })
    | some em =>
        Except.error (AcquireErr.databaseError
          ("Failed to get connection: Failed to create connection: " ++ em))
  else
    Except.error (AcquireErr.databaseError
      "Failed to get connection: Maximum connections reached")

/-- Embeds `DatabasePool.get_connection` (src/database/connection.py lines
66-97).  The whole body runs under `self._lock`, so no other task can put
into `_connection_queue` during the `asyncio.wait_for` dequeue; hence the
dequeue succeeds exactly when the queue is nonempty on entry, and an empty
queue always ends in `asyncio.TimeoutError` (recorded in the
`"timeouts"` metric, the returned `Bool`).  `validFront` is the outcome of
the liveness probe `_validate_connection_sync` on the dequeued connection:
a valid connection is returned to the caller, an invalid one is closed
(removed from the active set) and control falls through to creation.
`createErr` is the outcome of `sqlite3.connect` if creation is attempted
(see `createUnderLimit`).  The returned `PoolState` is the pool state
after the call, also when the call raises (the dequeue and close
mutations persist; a failed creation adds nothing). -/
def getConnection (s : PoolState) (validFront : Bool)
    (createErr : Option String) :
    Except AcquireErr Nat × PoolState × Bool :=
  match s.idle with
  | [] =>
      match createUnderLimit s createErr with
      | Except.ok (c, s') => (Except.ok c, s', true)
      | Except.error e => (Except.error e, s, true)
  | c :: rest =>
      if validFront then
        (Except.ok c, { s with idle := rest }, false)
      else
        match createUnderLimit
            { s with idle := rest, active := s.active.erase c } createErr with
        | Except.ok (c', s'') => (Except.ok c', s'', false)
        | Except.error e =>
            (Except.error e, { s with idle := rest, active := s.active.erase c }, false)

/-- Embeds `DatabasePool.return_connection` (src/database/connection.py
lines 99-108): if the connection is in `_active_connections` it is put
into `_connection_queue`; the `QueueFull` branch closes the connection
instead (the queue has `maxsize = max_connections`).  A connection outside
the active set is ignored. -/
def returnConnection (s : PoolState) (c : Nat) : PoolState :=
  if c ∈ s.active then
    if s.idle.length < s.maxConnections then
      { s with idle := s.idle ++ [c] }
    else
      { s with active := s.active.erase c }
  else s

/-- One pool operation of a trace: an acquire (with the probe outcome for
the dequeued connection, if any, and the creation outcome if creation is
attempted) or a release of a given connection. -/
inductive PoolOp where
  | acquire (validFront : Bool) (createErr : Option String)
  | release (conn : Nat)
deriving DecidableEq, Repr

/-- State reached after one operation (each operation is atomic because
the source holds `self._lock` for its whole body). -/
def applyOp (s : PoolState) : PoolOp → PoolState
  | PoolOp.acquire v ce => (getConnection s v ce).2.1
  | PoolOp.release c => returnConnection s c

/-- A release is well-behaved when it targets a currently checked-out
connection: in the active set and not already idle.  This is exactly the
discipline of the claim, "each caller releases each acquired connection
exactly once".  Acquires are always allowed. -/
def legalOpB (s : PoolState) : PoolOp → Bool
  | PoolOp.acquire _ _ => true
  | PoolOp.release c => decide (c ∈ s.active) && decide (c ∉ s.idle)

/-- Run a sequence of pool operations. -/
def runOps (s : PoolState) : List PoolOp → PoolState
  | [] => s
  | op :: rest => runOps (applyOp s op) rest

/-- A trace is legal when every step is legal in the state it runs in. -/
def legalTrace (s : PoolState) : List PoolOp → Bool
  | [] => true
  | op :: rest => legalOpB s op && legalTrace (applyOp s op) rest

/-- Connections currently checked out: in the active set but not idle. -/
def checkedOut (s : PoolState) : Finset Nat :=
  s.active \ s.idle.toFinset

/-- Number of checked-out connections. -/
def checkedOutCount (s : PoolState) : Nat :=
  (checkedOut s).card

/-- The pool's structural invariant: the idle queue has no duplicates,
idle connections are active, the active set is within capacity, and all
handles are below the fresh-handle source. -/
def PoolInv (s : PoolState) : Prop :=
  s.idle.Nodup ∧ (∀ c ∈ s.idle, c ∈ s.active) ∧
    s.active.card ≤ s.maxConnections ∧ (∀ c ∈ s.active, c < s.nextId)

lemma poolInv_init (maxC : Nat) : PoolInv (initPool maxC) := by
  refine ⟨List.nodup_nil, ?_, ?_, ?_⟩ <;> simp [initPool]

lemma createUnderLimit_inv {s : PoolState} {ce : Option String}
    (h : PoolInv s) :
    ∀ c s', createUnderLimit s ce = Except.ok (c, s') → PoolInv s' := by
  intro c s' hcs
  obtain ⟨h1, h2, h3, h4⟩ := h
  unfold createUnderLimit at hcs
  split at hcs
  · rename_i hlt
    cases ce with
    | some em => exact absurd hcs (by simp)
    | none =>
        injection hcs with hcs
        injection hcs with hc hs
        subst hs
        refine ⟨h1, ?_, ?_, ?_⟩
        · intro x hx
          exact Finset.mem_insert_of_mem (h2 x hx)
        · have hfresh : s.nextId ∉ s.active :=
            fun hmem => lt_irrefl _ (h4 _ hmem)
          simpa [Finset.card_insert_of_not_mem hfresh] using hlt
        · intro x hx
          rcases Finset.mem_insert.mp hx with hx | hx
          · exact hx ▸ Nat.lt_succ_self s.nextId
          · exact Nat.lt_succ_of_lt (h4 x hx)
  · exact absurd hcs (by simp)

lemma createUnderLimit_state {s : PoolState} {ce : Option String} :
    ∀ c s', createUnderLimit s ce = Except.ok (c, s') →
      s'.maxConnections = s.maxConnections ∧ s'.idle = s.idle := by
  intro c s' hcs
  unfold createUnderLimit at hcs
  split at hcs
  · cases ce with
    | some em => exact absurd hcs (by simp)
    | none =>
        injection hcs with hcs
        injection hcs with hc hs
        subst hs
        exact ⟨rfl, rfl⟩
  · exact absurd hcs (by simp)

lemma getConnection_inv {s : PoolState} (h : PoolInv s) (v : Bool)
    (ce : Option String) :
    PoolInv (getConnection s v ce).2.1 := by
  obtain ⟨h1, h2, h3, h4⟩ := h
  unfold getConnection
  match hidle : s.idle with
  | [] =>
      cases hcr : createUnderLimit s ce with
      | ok p =>
          exact createUnderLimit_inv ⟨h1, h2, h3, h4⟩ p.1 p.2
            (by rw [hcr])
      | error e => exact ⟨h1, h2, h3, h4⟩
  | c :: rest =>
      have hnodup : (c :: rest).Nodup := hidle ▸ h1
      have hcnotrest : c ∉ rest := (List.nodup_cons.mp hnodup).1
      have hrestnodup : rest.Nodup := (List.nodup_cons.mp hnodup).2
      by_cases hv : v = true
      · simp only [hv, if_true]
        refine ⟨hrestnodup, ?_, h3, h4⟩
        intro x hx
        exact h2 x (hidle ▸ List.mem_cons_of_mem c hx)
      · have hv' : v = false := by
          cases v
          · rfl
          · exact absurd rfl hv
        simp only [hv', if_false]
        have hinv' : PoolInv { s with idle := rest, active := s.active.erase c } := by
          refine ⟨hrestnodup, ?_, ?_, ?_⟩
          · intro x hx
            refine Finset.mem_erase.mpr ⟨?_, h2 x (hidle ▸ List.mem_cons_of_mem c hx)⟩
            intro hxc
            exact hcnotrest (hxc ▸ hx)
          · exact le_trans (Finset.card_erase_le) h3
          · intro x hx
            exact h4 x (Finset.mem_of_mem_erase hx)
        cases hcr : createUnderLimit
            { s with idle := rest, active := s.active.erase c } ce with
        | ok p =>
            exact createUnderLimit_inv hinv' p.1 p.2 (by rw [hcr])
        | error e => exact hinv'

lemma returnConnection_inv {s : PoolState} (h : PoolInv s) (c : Nat)
    (hc : c ∈ s.active) (hcidle : c ∉ s.idle) :
    PoolInv (returnConnection s c) := by
  obtain ⟨h1, h2, h3, h4⟩ := h
  unfold returnConnection
  rw [if_pos hc]
  split
  · refine ⟨?_, ?_, h3, h4⟩
    · simpa [List.nodup_append] using ⟨h1, hcidle⟩
    · intro x hx
      rcases List.mem_append.mp hx with hx | hx
      · exact h2 x hx
      · have : x = c := by simpa using hx
        exact this ▸ hc
  · refine ⟨h1, ?_, ?_, ?_⟩
    · intro x hx
      refine Finset.mem_erase.mpr ⟨?_, h2 x hx⟩
      intro hxc
      exact hcidle (hxc ▸ hx)
    · exact le_trans (Finset.card_erase_le) h3
    · intro x hx
      exact h4 x (Finset.mem_of_mem_erase hx)

lemma runOps_inv {s : PoolState} (ops : List PoolOp) (h : PoolInv s)
    (hl : legalTrace s ops = true) : PoolInv (runOps s ops) := by
  induction ops generalizing s with
  | nil => exact h
  | cons op rest ih =>
      have hsplit := hl
      unfold legalTrace at hsplit
      rw [Bool.and_eq_true] at hsplit
      obtain ⟨hop, hrest⟩ := hsplit
      unfold runOps
      apply ih _ hrest
      cases op with
      | acquire v ce => exact getConnection_inv h v ce
      | release c =>
          unfold legalOpB at hop
          rw [Bool.and_eq_true, decide_eq_true_eq, decide_eq_true_eq] at hop
          exact returnConnection_inv h c hop.1 hop.2

lemma maxConnections_applyOp (s : PoolState) (op : PoolOp) :
    (applyOp s op).maxConnections = s.maxConnections := by
  cases op with
  | acquire v ce =>
      show ((getConnection s v ce).2.1).maxConnections = s.maxConnections
      unfold getConnection
      match hidle : s.idle with
      | [] =>
          cases hcr : createUnderLimit s ce with
          | ok p =>
              obtain ⟨hm, _⟩ := createUnderLimit_state p.1 p.2 (by rw [hcr])
              simpa using hm
          | error e => rfl
      | c :: rest =>
          by_cases hv : v = true
          · simp [hv]
          · have hv' : v = false := by
              cases v
              · rfl
              · exact absurd rfl hv
            simp only [hv', if_false]
            cases hcr : createUnderLimit
                { s with idle := rest, active := s.active.erase c } ce with
            | ok p =>
                obtain ⟨hm, _⟩ := createUnderLimit_state p.1 p.2 (by rw [hcr])
                simpa using hm
            | error e => rfl
  | release c =>
      show (returnConnection s c).maxConnections = s.maxConnections
      unfold returnConnection
      split
      · split <;> rfl
      · rfl

lemma maxConnections_runOps (s : PoolState) (ops : List PoolOp) :
    (runOps s ops).maxConnections = s.maxConnections := by
  induction ops generalizing s with
  | nil => rfl
  | cons op rest ih =>
      unfold runOps
      rw [ih, maxConnections_applyOp]

lemma poolInv_counting {s : PoolState} (h : PoolInv s) :
    checkedOutCount s + s.idle.length = s.active.card := by
  obtain ⟨h1, h2, _, _⟩ := h
  have hsub : s.idle.toFinset ⊆ s.active := by
    intro x hx
    exact h2 x (List.mem_toFinset.mp hx)
  have hcard : s.idle.toFinset.card = s.idle.length :=
    List.toFinset_card_of_nodup h1
  unfold checkedOutCount checkedOut
  rw [Finset.card_sdiff hsub, hcard]
  exact Nat.sub_add_cancel (hcard ▸ Finset.card_le_card hsub)

/-- C1.  Starting from the empty pool with capacity `maxC`, after any
sequence of `get_connection`/`return_connection` operations in which every
release targets a connection that is currently checked out (each acquired
connection released exactly once), the pool state satisfies
`checked_out + idle = |active set|` and `|active set| ≤ max_connections`.
Since every prefix of a legal trace is legal and the theorem quantifies
over all legal traces, the invariant holds at every instant. -/
theorem pool_invariant_legal_traces (maxC : Nat) (ops : List PoolOp)
    (h : legalTrace (initPool maxC) ops = true) :
    checkedOutCount (runOps (initPool maxC) ops)
        + (runOps (initPool maxC) ops).idle.length
      = (runOps (initPool maxC) ops).active.card
    ∧ (runOps (initPool maxC) ops).active.card ≤ maxC := by
  have hinv := runOps_inv ops (poolInv_init maxC) h
  refine ⟨poolInv_counting hinv, ?_⟩
  have hmax := maxConnections_runOps (initPool maxC) ops
  have := hinv.2.2.1
  rw [hmax] at this
  simpa [initPool] using this

/-- Witness for C1: a concrete legal trace with capacity 2 — two acquires
(creating connections 0 and 1), a release of 0, and a reacquire of the now
idle, valid connection 0. -/
theorem pool_invariant_legal_traces_witness :
    legalTrace (initPool 2)
        [PoolOp.acquire true none, PoolOp.acquire true none,
         PoolOp.release 0, PoolOp.acquire true none] = true
    ∧ (checkedOutCount (runOps (initPool 2)
          [PoolOp.acquire true none, PoolOp.acquire true none,
           PoolOp.release 0, PoolOp.acquire true none])
        + (runOps (initPool 2)
            [PoolOp.acquire true none, PoolOp.acquire true none,
             PoolOp.release 0, PoolOp.acquire true none]).idle.length
      = (runOps (initPool 2)
          [PoolOp.acquire true none, PoolOp.acquire true none,
           PoolOp.release 0, PoolOp.acquire true none]).active.card
      ∧ (runOps (initPool 2)
          [PoolOp.acquire true none, PoolOp.acquire true none,
           PoolOp.release 0, PoolOp.acquire true none]).active.card ≤ 2) :=
  ⟨by decide,
   pool_invariant_legal_traces 2
     [PoolOp.acquire true none, PoolOp.acquire true none,
      PoolOp.release 0, PoolOp.acquire true none] (by decide)⟩


/-- A pool at capacity: `max_connections = 1`, connection `0` created and
checked out, idle queue empty. -/
def poolAtCapacity : PoolState := ⟨1, {0}, [], 1⟩

/-- C2 counterexample.  On `poolAtCapacity`, `get_connection` both waits
out the dequeue timeout (the `"timeouts"` metric is incremented, third
component `true` — the pure wait-timeout case) and finds the active set at
capacity (the capacity case), yet the caller receives the single generic
`DatabaseError` value: the two failure reasons are collapsed into one
error, and no `AcquireTimeout`-like kind exists anywhere in the source. -/
theorem acquire_errors_collapsed_counterexample :
    (getConnection poolAtCapacity true none).2.2 = true
    ∧ poolAtCapacity.active.card = poolAtCapacity.maxConnections
    ∧ (getConnection poolAtCapacity true none).1
      = Except.error (AcquireErr.databaseError
          "Failed to get connection: Maximum connections reached") := by
  refine ⟨rfl, rfl, rfl⟩

lemma createUnderLimit_error {s : PoolState} {ce : Option String}
    {e : AcquireErr} (h : createUnderLimit s ce = Except.error e) :
    e = AcquireErr.databaseError
        "Failed to get connection: Maximum connections reached"
    ∨ ∃ em, ce = some em
        ∧ e = AcquireErr.databaseError
            ("Failed to get connection: Failed to create connection: "
              ++ em) := by
  unfold createUnderLimit at h
  split at h
  · cases ce with
    | none => exact absurd h (by simp)
    | some em =>
        injection h with h
        exact Or.inr ⟨em, rfl, h.symm⟩
  · injection h with h
    exact Or.inl h.symm

/-- C2 amended.  Every failed `get_connection` call surfaces the single
exception kind `DatabaseError`, with one of only two messages: the
capacity case and the pure wait-timeout case are collapsed into the one
value "Failed to get connection: Maximum connections reached" (no
`AcquireTimeout`-like kind exists; the timeout is recorded only in the
`"timeouts"` metrics counter), and the only other failure — a
`sqlite3.connect` error during creation below capacity — is reported as
"Failed to get connection: Failed to create connection: ...". -/
theorem acquire_failure_kinds_collapsed (s : PoolState) (v : Bool)
    (ce : Option String) (e : AcquireErr)
    (h : (getConnection s v ce).1 = Except.error e) :
    e = AcquireErr.databaseError
        "Failed to get connection: Maximum connections reached"
    ∨ ∃ em, ce = some em
        ∧ e = AcquireErr.databaseError
            ("Failed to get connection: Failed to create connection: "
              ++ em) := by
  rcases hidle : s.idle with _ | ⟨c, rest⟩
  · rcases hcr : createUnderLimit s ce with e' | ⟨c', s'⟩
    · have he := createUnderLimit_error hcr
      simp [getConnection, hidle, hcr] at h
      subst h
      exact he
    · simp [getConnection, hidle, hcr] at h
  · cases v with
    | true => simp [getConnection, hidle] at h
    | false =>
        rcases hcr : createUnderLimit
            { s with idle := rest, active := s.active.erase c } ce
          with e' | ⟨c', s'⟩
        · have he := createUnderLimit_error hcr
          simp [getConnection, hidle, hcr] at h
          subst h
          exact he
        · simp [getConnection, hidle, hcr] at h

/-- Witness for C2's amended theorem at the concrete pool
`poolAtCapacity` with a successful-connect environment (probe outcome
irrelevant: the idle queue is empty). -/
theorem acquire_failure_kinds_collapsed_witness :
    (getConnection poolAtCapacity false none).1
      = Except.error (AcquireErr.databaseError
          "Failed to get connection: Maximum connections reached")
    ∧ (AcquireErr.databaseError
          "Failed to get connection: Maximum connections reached"
        = AcquireErr.databaseError
            "Failed to get connection: Maximum connections reached"
      ∨ ∃ em, (none : Option String) = some em
          ∧ AcquireErr.databaseError
              "Failed to get connection: Maximum connections reached"
            = AcquireErr.databaseError
                ("Failed to get connection: Failed to create connection: "
                  ++ em)) :=
  ⟨rfl, acquire_failure_kinds_collapsed poolAtCapacity false none
    (AcquireErr.databaseError
      "Failed to get connection: Maximum connections reached") rfl⟩

/-- A pool with spare capacity and one checked-out connection:
`max_connections = 2`, connection `0` created and checked out. -/
def poolOneCheckedOut : PoolState := ⟨2, {0}, [], 1⟩

/-- C6.  Double release corrupts the pool: on `poolOneCheckedOut`,
calling `return_connection 0` twice passes the
`conn in self._active_connections` guard both times (a returned connection
stays in the active set), so the handle is enqueued twice.  The idle queue
becomes `[0, 0]` — a duplicate — and
`checked_out + idle = 0 + 2 = 2 > 1 = |active set|`: the second release is
neither a no-op nor rejected, and the invariant the claim requires is
violated. -/
theorem double_release_duplicates_handle :
    (returnConnection (returnConnection poolOneCheckedOut 0) 0).idle = [0, 0]
    ∧ ¬ (returnConnection (returnConnection poolOneCheckedOut 0) 0).idle.Nodup
    ∧ (returnConnection (returnConnection poolOneCheckedOut 0) 0).active.card
      < checkedOutCount (returnConnection (returnConnection poolOneCheckedOut 0) 0)
        + (returnConnection (returnConnection poolOneCheckedOut 0) 0).idle.length := by
  refine ⟨by decide, by decide, by decide⟩

/-- Outcome of `DatabasePool.close_all`: normal termination, or an
uncaught exception propagating to the caller.  Both carry the pool state
afterwards and the list of connections actually closed. -/
inductive CloseAllOutcome where
  | ok (s : PoolState) (closed : List Nat)
  | typeError (s : PoolState) (closed : List Nat)
deriving DecidableEq

/-- The drain loop of `close_all` (src/database/connection.py lines
122-127): `while not empty: conn = await self._connection_queue.get_nowait();
conn.close()`.  `Queue.get_nowait()` is a plain synchronous method
returning the connection itself, which is not awaitable: on a nonempty
queue the first iteration dequeues the front connection and the `await`
then raises `TypeError` before `conn.close()` runs; the only handler
catches `asyncio.QueueEmpty`, so the exception escapes and the loop never
runs a second iteration.  On an empty queue the loop body never runs.
Returns the remaining queue, the connections closed (none when the
exception fires), and whether `TypeError` was raised. -/
def drainIdle : List Nat → List Nat × List Nat × Bool
  | [] => ([], [], false)
  | _ :: rest => (rest, [], true)

/-- Embeds `DatabasePool.close_all` (src/database/connection.py lines
119-134): run the drain loop; if it raises, the exception propagates out
of `close_all` before the active-set loop, so nothing is closed and the
active set is untouched.  Otherwise close every connection in
`list(self._active_connections)` (ascending handle order) and clear the
active set. -/
def closeAll (s : PoolState) : CloseAllOutcome :=
  match drainIdle s.idle with
  | (q, closed, true) => CloseAllOutcome.typeError { s with idle := q } closed
  | (q, closed, false) =>
      CloseAllOutcome.ok { s with idle := q, active := ∅ }
        (closed ++ s.active.sort (· ≤ ·))

/-- When the idle queue is empty the drain loop is skipped and
`close_all` does complete, closing the active set and clearing it. -/
lemma closeAll_empty_idle (maxC nextId : Nat) (active : Finset Nat) :
    closeAll ⟨maxC, active, [], nextId⟩
      = CloseAllOutcome.ok ⟨maxC, ∅, [], nextId⟩ (active.sort (· ≤ ·)) := rfl

/-- C8.  `close_all` is broken on every pool whose idle queue is
nonempty: line 124 awaits the non-awaitable return value of
`Queue.get_nowait()`, so the first drain iteration dequeues the front
connection and raises an uncaught `TypeError` — no connection is closed
and the active set is left intact (the dequeued connection is dropped
from the queue without being closed).  This contradicts the claim that
`close_all` terminates normally, closes every idle and every
still-checked-out connection, and leaves the active set empty; only a
pool with an already-empty idle queue is closed as claimed
(`closeAll_empty_idle`). -/
theorem closeAll_typeerror_on_nonempty_idle (maxC nextId c : Nat)
    (active : Finset Nat) (rest : List Nat) :
    closeAll ⟨maxC, active, c :: rest, nextId⟩
      = CloseAllOutcome.typeError ⟨maxC, active, rest, nextId⟩ [] := rfl

/-- Atomic action of a source coroutine body, used to track which
cooperative suspension points run while the component's internal lock is
held. -/
inductive PyAction where
  | lockEnter
  | lockExit
  | suspendQueueWait
  | suspendWindowSleep
  | internal
deriving DecidableEq, Repr

/-- Action sequence of `DatabasePool.get_connection`
(src/database/connection.py lines 66-97): `async with self._lock`
(enter), then `await asyncio.wait_for(self._connection_queue.get(),
timeout)` — a cooperative suspension waiting for a pool slot — then the
probe/creation work, then the lock is released on exit of the
`async with` block. -/
def getConnectionActions : List PyAction :=
  [PyAction.lockEnter, PyAction.suspendQueueWait, PyAction.internal,
   PyAction.lockExit]

/-- Action sequence of `RequestBatcher._process_batch`
(src/modules/base.py lines 57-66): `await asyncio.sleep(self.batch_window)`
first — the batch-window suspension — and only then `async with
self.lock`. -/
def processBatchActions : List PyAction :=
  [PyAction.suspendWindowSleep, PyAction.lockEnter, PyAction.internal,
   PyAction.lockExit]

/-- Action sequence of `DatabasePool.return_connection`
(src/database/connection.py lines 99-108): the entire body runs inside
`async with self._lock`. -/
def returnConnectionActions : List PyAction :=
  [PyAction.lockEnter, PyAction.internal, PyAction.lockExit]

/-- For each cooperative suspension point in an action sequence, whether
the component's lock is held (lock depth positive) at that point. -/
def lockHeldAtSuspensions : List PyAction → Nat → List Bool
  | [], _ => []
  | PyAction.lockEnter :: rest, d => lockHeldAtSuspensions rest (d + 1)
  | PyAction.lockExit :: rest, d => lockHeldAtSuspensions rest (d - 1)
  | PyAction.suspendQueueWait :: rest, d =>
      decide (0 < d) :: lockHeldAtSuspensions rest d
  | PyAction.suspendWindowSleep :: rest, d =>
      decide (0 < d) :: lockHeldAtSuspensions rest d
  | PyAction.internal :: rest, d => lockHeldAtSuspensions rest d

/-- C9.  `get_connection` reaches its pool-slot suspension point (the
`asyncio.wait_for` dequeue) while holding the pool's lock, contradicting
the claim; the batcher's window sleep does run outside the batcher's lock.
Since `return_connection` begins by taking the same pool lock, a
concurrent release cannot complete while an acquire is suspended in the
dequeue wait — the release blocks until the waiter times out. -/
theorem acquire_waits_holding_pool_lock :
    lockHeldAtSuspensions getConnectionActions 0 = [true]
    ∧ lockHeldAtSuspensions processBatchActions 0 = [false]
    ∧ returnConnectionActions.head? = some PyAction.lockEnter := by
  refine ⟨rfl, rfl, rfl⟩

/-- Outcome of one attempt of the wrapped operation, as classified by the
`except httpx.HTTPError` handlers of the two retry loops: success, a
network-class failure (`httpx.HTTPError`, the only caught class), or a
validation-class failure (any other exception, e.g. `ValidationError`,
which no handler catches). -/
inductive AttemptOutcome (α : Type) where
  | ok (v : α)
  | httpError (msg : String)
  | validationError (msg : String)
deriving DecidableEq, Repr

/-- Result of a retry loop: a value, the `APIError` raised after the last
attempt, an uncaught exception propagating as-is, or the Python function
returning `None` because the loop ran zero iterations. -/
inductive RetryResult (α : Type) where
  | ok (v : α)
  | apiError (msg : String)
  | raised (msg : String)
  | loopEnded
deriving DecidableEq, Repr

/-- Whether a retry result is the `APIError` raised on exhaustion. -/
def RetryResult.isApiError : RetryResult α → Bool
  | RetryResult.apiError _ => true
  | _ => false

/-- Embeds the loop body of `AsyncHTTPClient._request_with_retry`
(src/modules/base.py lines 17-26): `for attempt in range(max_retries)`,
attempt index `i`, remaining iterations `fuel` (at the entry point
`fuel = max_retries`, `i = 0`).  On `httpx.HTTPError` at the last index
an `APIError` is raised; otherwise the loop sleeps
`self.retry_delay * (2 ** attempt)` and retries.  Any other exception
propagates immediately.  Returns the result, the number of attempts made,
and the list of backoff delays slept, in order. -/
def requestWithRetryGo (op : Nat → AttemptOutcome α) (maxRetries : Nat)
    (retryDelay : ℚ) : Nat → Nat → RetryResult α × Nat × List ℚ
  | 0, _ => (RetryResult.loopEnded, 0, [])
  | fuel + 1, i =>
      match op i with
      | AttemptOutcome.ok v => (RetryResult.ok v, 1, [])
      | AttemptOutcome.validationError m => (RetryResult.raised m, 1, [])
      | AttemptOutcome.httpError m =>
          if i = maxRetries - 1 then
            (RetryResult.apiError ("HTTP request failed after "
              ++ toString maxRetries ++ " attempts: " ++ m), 1, [])
          else
            let p := requestWithRetryGo op maxRetries retryDelay fuel (i + 1)
            (p.1, p.2.1 + 1, retryDelay * 2 ^ i :: p.2.2)

/-- `AsyncHTTPClient._request_with_retry` (src/modules/base.py lines
17-26). -/
def requestWithRetry (op : Nat → AttemptOutcome α) (maxRetries : Nat)
    (retryDelay : ℚ) : RetryResult α × Nat × List ℚ :=
  requestWithRetryGo op maxRetries retryDelay maxRetries 0

/-- Embeds the loop body of `RepositoryManager._make_request_with_retry`
(src/modules/repository.py lines 49-61): `while retry_count <
settings.retry.max_retries`, with `retry_count` (`rc`) incremented before
the sleep, so the delay slept after the failure of attempt `rc` is
`retry_delay * retry_backoff ** (rc + 1)`.  `fuel` is the number of loop
iterations still allowed (`maxRetries - rc`). -/
def makeRequestWithRetryGo (op : Nat → AttemptOutcome α) (maxRetries : Nat)
    (retryDelay backoff : ℚ) : Nat → Nat → RetryResult α × Nat × List ℚ
  | 0, _ => (RetryResult.loopEnded, 0, [])
  | fuel + 1, rc =>
      match op rc with
      | AttemptOutcome.ok v => (RetryResult.ok v, 1, [])
      | AttemptOutcome.validationError m => (RetryResult.raised m, 1, [])
      | AttemptOutcome.httpError m =>
          if rc + 1 = maxRetries then
            (RetryResult.apiError ("HTTP error after "
              ++ toString (rc + 1) ++ " retries: " ++ m), 1, [])
          else
            let p := makeRequestWithRetryGo op maxRetries retryDelay backoff
              fuel (rc + 1)
            (p.1, p.2.1 + 1, retryDelay * backoff ^ (rc + 1) :: p.2.2)

/-- `RepositoryManager._make_request_with_retry`
(src/modules/repository.py lines 49-61). -/
def makeRequestWithRetry (op : Nat → AttemptOutcome α) (maxRetries : Nat)
    (retryDelay backoff : ℚ) : RetryResult α × Nat × List ℚ :=
  makeRequestWithRetryGo op maxRetries retryDelay backoff maxRetries 0

/-- The inter-attempt delay the claim asserts: geometric backoff with a
`max_delay` ceiling. -/
def specDelay (base mult maxDelay : ℚ) (i : Nat) : ℚ :=
  min (base * mult ^ i) maxDelay

/-- An operation whose every attempt fails with a network-class error. -/
def allFailOp : Nat → AttemptOutcome Unit :=
  fun _ => AttemptOutcome.httpError "boom"

/-- C3 counterexample.  With `max_attempts = 4`, `base_delay = 1`,
multiplier `2` (the hard-coded factor of `_request_with_retry`) and any
claimed ceiling `max_delay = 3`, the code sleeps `[1, 2, 4]` — the third
delay exceeds the ceiling, because neither retry loop applies `max_delay`
(the `retry_max_delay` setting exists in `config/settings.py` but is never
read).  The claimed capped delays would be `[1, 2, 3]`. -/
lemma requestWithRetryGo_attempts_le (op : Nat → AttemptOutcome α) (N : Nat)
    (d : ℚ) : ∀ fuel i, (requestWithRetryGo op N d fuel i).2.1 ≤ fuel := by
  intro fuel
  induction fuel with
  | zero => intro i; simp [requestWithRetryGo]
  | succ f ih =>
      intro i
      cases hop : op i with
      | ok v => simp [requestWithRetryGo, hop]
      | validationError m => simp [requestWithRetryGo, hop]
      | httpError m =>
          by_cases hi : i = N - 1
          · subst hi
            simp [requestWithRetryGo, hop]
          · have h := ih (i + 1)
            simp only [requestWithRetryGo, hop, hi, if_false]
            simpa using Nat.add_le_add_right h 1

lemma makeRequestWithRetryGo_attempts_le (op : Nat → AttemptOutcome α)
    (N : Nat) (d m : ℚ) :
    ∀ fuel rc, (makeRequestWithRetryGo op N d m fuel rc).2.1 ≤ fuel := by
  intro fuel
  induction fuel with
  | zero => intro rc; simp [makeRequestWithRetryGo]
  | succ f ih =>
      intro rc
      cases hop : op rc with
      | ok v => simp [makeRequestWithRetryGo, hop]
      | validationError m' => simp [makeRequestWithRetryGo, hop]
      | httpError m' =>
          by_cases hrc : rc + 1 = N
          · simp [makeRequestWithRetryGo, hop, hrc]
          · have h := ih (rc + 1)
            simp only [makeRequestWithRetryGo, hop, hrc, if_false]
            simpa using Nat.add_le_add_right h 1

lemma requestWithRetryGo_allFail (op : Nat → AttemptOutcome α) (N : Nat)
    (d : ℚ) (hop : ∀ j, ∃ m, op j = AttemptOutcome.httpError m) :
    ∀ fuel i, 1 ≤ fuel → i + fuel = N →
      (requestWithRetryGo op N d fuel i).1.isApiError = true
      ∧ (requestWithRetryGo op N d fuel i).2.1 = fuel
      ∧ (requestWithRetryGo op N d fuel i).2.2
        = (List.range' i (fuel - 1)).map (fun j => d * 2 ^ j) := by
  intro fuel
  induction fuel with
  | zero => intro i h0; exact absurd h0 (by omega)
  | succ f ih =>
      intro i _ hiN
      obtain ⟨m, hm⟩ := hop i
      by_cases hf : f = 0
      · subst hf
        have hi : i = N - 1 := by omega
        subst hi
        refine ⟨?_, ?_, ?_⟩ <;>
          simp [requestWithRetryGo, hm, RetryResult.isApiError]
      · have hi : ¬ i = N - 1 := by omega
        obtain ⟨ih1, ih2, ih3⟩ := ih (i + 1) (by omega) (by omega)
        refine ⟨?_, ?_, ?_⟩
        · simpa [requestWithRetryGo, hm, hi] using ih1
        · simpa [requestWithRetryGo, hm, hi] using ih2
        · simp only [requestWithRetryGo, hm, hi, if_false, ih3,
            Nat.add_sub_cancel]
          obtain ⟨f', hf'⟩ : ∃ f', f = f' + 1 := ⟨f - 1, by omega⟩
          rw [hf', List.range'_succ]
          simp

lemma makeRequestWithRetryGo_allFail (op : Nat → AttemptOutcome α) (N : Nat)
    (d mu : ℚ) (hop : ∀ j, ∃ m, op j = AttemptOutcome.httpError m) :
    ∀ fuel rc, 1 ≤ fuel → rc + fuel = N →
      (makeRequestWithRetryGo op N d mu fuel rc).1.isApiError = true
      ∧ (makeRequestWithRetryGo op N d mu fuel rc).2.1 = fuel
      ∧ (makeRequestWithRetryGo op N d mu fuel rc).2.2
        = (List.range' rc (fuel - 1)).map (fun j => d * mu ^ (j + 1)) := by
  intro fuel
  induction fuel with
  | zero => intro rc h0; exact absurd h0 (by omega)
  | succ f ih =>
      intro rc _ hrcN
      obtain ⟨m, hm⟩ := hop rc
      by_cases hf : f = 0
      · subst hf
        have hrc : rc + 1 = N := by omega
        refine ⟨?_, ?_, ?_⟩ <;>
          simp [makeRequestWithRetryGo, hm, hrc, RetryResult.isApiError]
      · have hrc : ¬ rc + 1 = N := by omega
        obtain ⟨ih1, ih2, ih3⟩ := ih (rc + 1) (by omega) (by omega)
        refine ⟨?_, ?_, ?_⟩
        · simpa [makeRequestWithRetryGo, hm, hrc] using ih1
        · simpa [makeRequestWithRetryGo, hm, hrc] using ih2
        · simp only [makeRequestWithRetryGo, hm, hrc, if_false, ih3,
            Nat.add_sub_cancel]
          obtain ⟨f', hf'⟩ : ∃ f', f = f' + 1 := ⟨f - 1, by omega⟩
          rw [hf', List.range'_succ]
          simp

/-- C3 counterexample.  With `max_attempts = 4`, `base_delay = 1`,
multiplier `2` (the hard-coded factor of `_request_with_retry`) and any
claimed ceiling `max_delay = 3`, the code sleeps `[1, 2, 4]` — the third
delay exceeds the ceiling, because neither retry loop applies `max_delay`
(the `retry_max_delay` setting exists in `config/settings.py` but is never
read).  The claimed capped delays would be `[1, 2, 3]`. -/
theorem retry_no_delay_ceiling_counterexample :
    (requestWithRetry allFailOp 4 1).2.2 = [1, 2, 4]
    ∧ (List.range 3).map (specDelay 1 2 3) = [1, 2, 3]
    ∧ (requestWithRetry allFailOp 4 1).2.2
      ≠ (List.range 3).map (specDelay 1 2 3) := by
  obtain ⟨-, -, h3⟩ := requestWithRetryGo_allFail allFailOp 4 1
    (fun _ => ⟨"boom", rfl⟩) 4 0 (by omega) (by omega)
  have hcode : (requestWithRetry allFailOp 4 1).2.2 = [1, 2, 4] := by
    rw [requestWithRetry, h3]
    have hr : List.range' 0 (4 - 1) = [0, 1, 2] := by decide
    rw [hr]
    norm_num
  have hspec : (List.range 3).map (specDelay 1 2 3) = [1, 2, 3] := by
    have hr : List.range 3 = [0, 1, 2] := by decide
    rw [hr]
    norm_num [specDelay, min_def]
  refine ⟨hcode, hspec, ?_⟩
  intro heq
  rw [hcode, hspec] at heq
  norm_num at heq

/-- C3 amended.  Both retry loops make at most `max_attempts` attempts, and
exactly `max_attempts` when every attempt fails with a network-class
error; but the backoff has no ceiling: `_request_with_retry` sleeps
`base_delay * 2^i` between attempts `i` and `i+1` (`i` in `0..N-2`), and
`_make_request_with_retry` sleeps `base_delay * backoff_multiplier^(i+1)`
(the exponent starts at 1 because `retry_count` is incremented before the
sleep).  No `min(..., max_delay)` cap is applied anywhere. -/
theorem retry_attempts_and_uncapped_backoff (N : Nat) (hN : 1 ≤ N)
    (d mu : ℚ) (op : Nat → AttemptOutcome Unit)
    (hop : ∀ j, ∃ m, op j = AttemptOutcome.httpError m) :
    (∀ op' : Nat → AttemptOutcome Unit,
      (requestWithRetry op' N d).2.1 ≤ N
      ∧ (makeRequestWithRetry op' N d mu).2.1 ≤ N)
    ∧ (requestWithRetry op N d).2.1 = N
    ∧ (requestWithRetry op N d).2.2
      = (List.range (N - 1)).map (fun i => d * 2 ^ i)
    ∧ (makeRequestWithRetry op N d mu).2.1 = N
    ∧ (makeRequestWithRetry op N d mu).2.2
      = (List.range (N - 1)).map (fun i => d * mu ^ (i + 1)) := by
  obtain ⟨h1, h2, h3⟩ := requestWithRetryGo_allFail op N d hop N 0 hN (by omega)
  obtain ⟨g1, g2, g3⟩ := makeRequestWithRetryGo_allFail op N d mu hop N 0 hN (by omega)
  refine ⟨?_, h2, ?_, g2, ?_⟩
  · intro op'
    exact ⟨requestWithRetryGo_attempts_le op' N d N 0,
      makeRequestWithRetryGo_attempts_le op' N d mu N 0⟩
  · rw [List.range_eq_range']
    exact h3
  · rw [List.range_eq_range']
    exact g3

/-- Witness for C3's amended theorem: three attempts, base delay 1/2,
multiplier 3 for the repository loop; every attempt fails. -/
theorem retry_attempts_and_uncapped_backoff_witness :
    (∀ op' : Nat → AttemptOutcome Unit,
      (requestWithRetry op' 3 (1 / 2)).2.1 ≤ 3
      ∧ (makeRequestWithRetry op' 3 (1 / 2) 3).2.1 ≤ 3)
    ∧ (requestWithRetry allFailOp 3 (1 / 2)).2.1 = 3
    ∧ (requestWithRetry allFailOp 3 (1 / 2)).2.2
      = (List.range (3 - 1)).map (fun i => (1 / 2 : ℚ) * 2 ^ i)
    ∧ (makeRequestWithRetry allFailOp 3 (1 / 2) 3).2.1 = 3
    ∧ (makeRequestWithRetry allFailOp 3 (1 / 2) 3).2.2
      = (List.range (3 - 1)).map (fun i => (1 / 2 : ℚ) * 3 ^ (i + 1)) :=
  retry_attempts_and_uncapped_backoff 3 (by decide) (1 / 2) 3 allFailOp
    (fun _ => ⟨"boom", rfl⟩)

lemma requestWithRetryGo_validation (op : Nat → AttemptOutcome α) (N : Nat)
    (d : ℚ) (msg : String) :
    ∀ k fuel i, k < fuel → i + fuel = N →
      (∀ j, j < k → ∃ m, op (i + j) = AttemptOutcome.httpError m) →
      op (i + k) = AttemptOutcome.validationError msg →
      requestWithRetryGo op N d fuel i
        = (RetryResult.raised msg, k + 1,
            (List.range' i k).map (fun j => d * 2 ^ j)) := by
  intro k
  induction k with
  | zero =>
      intro fuel i hk hiN _ hval
      obtain ⟨f, rfl⟩ : ∃ f, fuel = f + 1 := ⟨fuel - 1, by omega⟩
      simp only [Nat.add_zero] at hval
      simp [requestWithRetryGo, hval]
  | succ k ih =>
      intro fuel i hk hiN hbefore hval
      obtain ⟨f, rfl⟩ : ∃ f, fuel = f + 1 := ⟨fuel - 1, by omega⟩
      obtain ⟨m, hm⟩ := hbefore 0 (by omega)
      simp only [Nat.add_zero] at hm
      have hi : ¬ i = N - 1 := by omega
      have hih := ih f (i + 1) (by omega) (by omega)
        (fun j hj => by
          obtain ⟨m', hm'⟩ := hbefore (j + 1) (by omega)
          exact ⟨m', by simpa [Nat.add_assoc, Nat.add_comm 1 j] using hm'⟩)
        (by simpa [Nat.add_assoc, Nat.add_comm 1 k] using hval)
      simp only [requestWithRetryGo, hm, hi, if_false, hih]
      rw [List.range'_succ]
      simp

lemma makeRequestWithRetryGo_validation (op : Nat → AttemptOutcome α)
    (N : Nat) (d mu : ℚ) (msg : String) :
    ∀ k fuel rc, k < fuel → rc + fuel = N →
      (∀ j, j < k → ∃ m, op (rc + j) = AttemptOutcome.httpError m) →
      op (rc + k) = AttemptOutcome.validationError msg →
      makeRequestWithRetryGo op N d mu fuel rc
        = (RetryResult.raised msg, k + 1,
            (List.range' rc k).map (fun j => d * mu ^ (j + 1))) := by
  intro k
  induction k with
  | zero =>
      intro fuel rc hk hrcN _ hval
      obtain ⟨f, rfl⟩ : ∃ f, fuel = f + 1 := ⟨fuel - 1, by omega⟩
      simp only [Nat.add_zero] at hval
      simp [makeRequestWithRetryGo, hval]
  | succ k ih =>
      intro fuel rc hk hrcN hbefore hval
      obtain ⟨f, rfl⟩ : ∃ f, fuel = f + 1 := ⟨fuel - 1, by omega⟩
      obtain ⟨m, hm⟩ := hbefore 0 (by omega)
      simp only [Nat.add_zero] at hm
      have hrc : ¬ rc + 1 = N := by omega
      have hih := ih f (rc + 1) (by omega) (by omega)
        (fun j hj => by
          obtain ⟨m', hm'⟩ := hbefore (j + 1) (by omega)
          exact ⟨m', by simpa [Nat.add_assoc, Nat.add_comm 1 j] using hm'⟩)
        (by simpa [Nat.add_assoc, Nat.add_comm 1 k] using hval)
      simp only [makeRequestWithRetryGo, hm, hrc, if_false, hih]
      rw [List.range'_succ]
      simp

/-- C7.  In both retry loops only network-class failures
(`httpx.HTTPError`) are retried: if the first `k` attempts fail with
network-class errors and attempt `k` (zero-based) raises a
validation-class failure, the loop re-raises it as-is immediately — the
result is the uncaught exception itself, exactly `k + 1 ≤ max_attempts`
attempts are made, and the slept delays are exactly the `k` backoff
delays of the earlier network failures (no backoff sleep follows the
validation failure). -/
theorem validation_error_aborts_immediately (N k : Nat) (d mu : ℚ)
    (op : Nat → AttemptOutcome Unit) (msg : String) (hk : k < N)
    (hbefore : ∀ j, j < k → ∃ m, op j = AttemptOutcome.httpError m)
    (hval : op k = AttemptOutcome.validationError msg) :
    (requestWithRetry op N d).1 = RetryResult.raised msg
    ∧ (requestWithRetry op N d).2.1 = k + 1
    ∧ (requestWithRetry op N d).2.2
      = (List.range k).map (fun j => d * 2 ^ j)
    ∧ (makeRequestWithRetry op N d mu).1 = RetryResult.raised msg
    ∧ (makeRequestWithRetry op N d mu).2.1 = k + 1
    ∧ (makeRequestWithRetry op N d mu).2.2
      = (List.range k).map (fun j => d * mu ^ (j + 1))
    ∧ k + 1 ≤ N := by
  have h1 := requestWithRetryGo_validation op N d msg k N 0 hk (by omega)
    (fun j hj => by simpa using hbefore j hj) (by simpa using hval)
  have h2 := makeRequestWithRetryGo_validation op N d mu msg k N 0 hk (by omega)
    (fun j hj => by simpa using hbefore j hj) (by simpa using hval)
  unfold requestWithRetry makeRequestWithRetry
  rw [h1, h2, List.range_eq_range']
  exact ⟨rfl, rfl, rfl, rfl, rfl, rfl, by omega⟩

/-- An operation whose first attempt fails with a network error and whose
second attempt raises a validation error. -/
def valAfterOneOp : Nat → AttemptOutcome Unit
  | 0 => AttemptOutcome.httpError "gateway timeout"
  | _ + 1 => AttemptOutcome.validationError "invalid url"

/-- Witness for C7: `max_attempts = 3`, one network failure, then a
validation failure on the second attempt. -/
theorem validation_error_aborts_immediately_witness :
    (requestWithRetry valAfterOneOp 3 1).1 = RetryResult.raised "invalid url"
    ∧ (requestWithRetry valAfterOneOp 3 1).2.1 = 1 + 1
    ∧ (requestWithRetry valAfterOneOp 3 1).2.2
      = (List.range 1).map (fun j => (1 : ℚ) * 2 ^ j)
    ∧ (makeRequestWithRetry valAfterOneOp 3 1 2).1
      = RetryResult.raised "invalid url"
    ∧ (makeRequestWithRetry valAfterOneOp 3 1 2).2.1 = 1 + 1
    ∧ (makeRequestWithRetry valAfterOneOp 3 1 2).2.2
      = (List.range 1).map (fun j => (1 : ℚ) * 2 ^ (j + 1))
    ∧ 1 + 1 ≤ 3 :=
  validation_error_aborts_immediately 3 1 1 2 valAfterOneOp "invalid url"
    (by decide)
    (fun j hj =>
      match j, hj with
      | 0, _ => ⟨"gateway timeout", rfl⟩
      | j + 1, hj => absurd hj (by omega))
    rfl

/-- Scheduling state of `RequestBatcher` (src/modules/base.py lines
34-40): `pending` is `len(self.pending_requests)` and `task` is the fire
time (creation time plus `batch_window`) of the `_process_batch` task
referenced by `self._batch_task`, if one is pending.  All mutation happens
under `self.lock`; the `await asyncio.sleep(batch_window)` at the head of
`_process_batch` runs outside it, so submits can interleave with a
scheduled flush. -/
structure BatcherState where
  pending : Nat
  task : Option ℚ
deriving DecidableEq

/-- A fresh `RequestBatcher`: no pending requests, no scheduled flush. -/
def batcherInit : BatcherState := ⟨0, none⟩

/-- A scheduled `_process_batch` task whose sleep ended at or before time
`t` runs before the next submit: it takes the first `batch_size` pending
requests (the rest stay queued), clears `self._batch_task`, and flushes at
its fire time (src/modules/base.py lines 57-66). -/
def fireDue (B : Nat) (s : BatcherState) (t : ℚ) : BatcherState × List ℚ :=
  match s.task with
  | some ft =>
      if ft ≤ t then (⟨s.pending - min s.pending B, none⟩, [ft])
      else (s, [])
  | none => (s, [])

/-- Embeds `RequestBatcher.add_request` (src/modules/base.py lines 42-55)
at time `t`, after first running any flush task that came due: append the
request; if the pending count reaches `batch_size` cancel the scheduled
task and create a new `_process_batch` task (which will sleep a fresh
`batch_window`, hence fire at `t + W`); otherwise schedule a task only if
none is pending.  Returns the new state and the flush times that occurred
before this submit. -/
def submitOne (B : Nat) (W : ℚ) (s : BatcherState) (t : ℚ) :
    BatcherState × List ℚ :=
  if B ≤ (fireDue B s t).1.pending + 1 then
    (⟨(fireDue B s t).1.pending + 1, some (t + W)⟩, (fireDue B s t).2)
  else
    match (fireDue B s t).1.task with
    | some ft => (⟨(fireDue B s t).1.pending + 1, some ft⟩, (fireDue B s t).2)
    | none => (⟨(fireDue B s t).1.pending + 1, some (t + W)⟩, (fireDue B s t).2)

/-- Run a sequence of submits at the given (nondecreasing) times,
collecting flush times in order. -/
def runSubmits (B : Nat) (W : ℚ) : List ℚ → BatcherState → BatcherState × List ℚ
  | [], s => (s, [])
  | t :: ts, s =>
      ((runSubmits B W ts (submitOne B W s t).1).1,
        (submitOne B W s t).2 ++ (runSubmits B W ts (submitOne B W s t).1).2)

/-- All flush times of a submit sequence starting from a fresh batcher,
including the final scheduled task firing after the last submit. -/
def flushTimes (B : Nat) (W : ℚ) (ts : List ℚ) : List ℚ :=
  match (runSubmits B W ts batcherInit).1.task with
  | some ft => (runSubmits B W ts batcherInit).2 ++ [ft]
  | none => (runSubmits B W ts batcherInit).2

/-- C4 counterexample.  `batch_size = 2`, `batch_window = 1`, submits at
times `0` and `1/2`: the second submit reaches `batch_size`, cancels the
task scheduled to fire at `1`, and creates a new `_process_batch` task —
which sleeps a full fresh `batch_window` first, so the flush happens at
`3/2`, not immediately at `1/2` as the claim asserts. -/
theorem batch_size_reached_still_waits_counterexample :
    flushTimes 2 1 [0, 1 / 2] = [3 / 2]
    ∧ (3 / 2 : ℚ) ≠ 1 / 2 := by
  constructor
  · norm_num [flushTimes, runSubmits, submitOne, fireDue, batcherInit]
  · norm_num

lemma runSubmits_no_fire (B : Nat) (W : ℚ) :
    ∀ (ts : List ℚ) (s : BatcherState) (d : ℚ),
      s.task = some d → (∀ t ∈ ts, t < d) → s.pending + ts.length < B →
      runSubmits B W ts s = (⟨s.pending + ts.length, some d⟩, []) := by
  intro ts
  induction ts with
  | nil =>
      intro s d htask _ _
      cases s with
      | mk p tk =>
          simp only at htask
          simp [runSubmits, htask]
  | cons t ts ih =>
      intro s d htask hbound hcount
      have hne : ¬ d ≤ t := not_le.mpr (hbound t (List.mem_cons_self t ts))
      have hfire : fireDue B s t = (s, []) := by
        simp [fireDue, htask, hne]
      have hlt : s.pending + 1 + ts.length < B := by
        simp only [List.length_cons] at hcount
        omega
      have hp : ¬ B ≤ s.pending + 1 := by omega
      have hsub : submitOne B W s t = (⟨s.pending + 1, some d⟩, []) := by
        simp [submitOne, hfire, hp, htask]
      have ihh := ih ⟨s.pending + 1, some d⟩ d rfl
        (fun x hx => hbound x (List.mem_cons_of_mem t hx)) hlt
      have hfin : s.pending + 1 + ts.length = s.pending + (t :: ts).length := by
        simp only [List.length_cons]
        omega
      simp only [runSubmits, hsub, ihh, hfin, List.append_nil, List.nil_append]

lemma runSubmits_append (B : Nat) (W : ℚ) :
    ∀ (l1 l2 : List ℚ) (s : BatcherState),
      runSubmits B W (l1 ++ l2) s
        = ((runSubmits B W l2 (runSubmits B W l1 s).1).1,
            (runSubmits B W l1 s).2
              ++ (runSubmits B W l2 (runSubmits B W l1 s).1).2) := by
  intro l1
  induction l1 with
  | nil => intro l2 s; simp [runSubmits]
  | cons t l1 ih =>
      intro l2 s
      show runSubmits B W (t :: (l1 ++ l2)) s = _
      simp only [runSubmits, ih, List.append_assoc]

/-- C4 amended.  Reaching `batch_size` does not flush immediately: it
cancels the scheduled flush task and starts a new `_process_batch` task
that sleeps a fresh `batch_window` first.  For submits `t1 :: ts` all
arriving within the first window, a batch of exactly `batch_size` flushes
at `(last submit) + batch_window`, and a batch of fewer than `batch_size`
flushes at `t1 + batch_window`. -/
theorem batch_flush_after_window (B : Nat) (W t1 : ℚ) (ts : List ℚ)
    (hB : 2 ≤ B) (hlen : ts.length + 1 ≤ B)
    (hbound : ∀ t ∈ ts, t < t1 + W) :
    flushTimes B W (t1 :: ts)
      = [(if ts.length + 1 = B then ts.getLastD t1 else t1) + W] := by
  have hnotB : ¬ B ≤ 0 + 1 := by omega
  have hsub1 : submitOne B W batcherInit t1 = (⟨1, some (t1 + W)⟩, []) := by
    simp [submitOne, fireDue, batcherInit, hnotB]
  by_cases hfull : ts.length + 1 = B
  · have hne : ts ≠ [] := by
      intro hnil
      rw [hnil] at hfull
      simp at hfull
      omega
    rcases List.eq_nil_or_concat ts with hnil | ⟨ts', tB, rfl⟩
    · exact absurd hnil hne
    · simp only [List.concat_eq_append] at hbound hfull ⊢
      have hflen : ts'.length + 2 = B := by
        simp only [List.length_append, List.length_cons, List.length_nil]
          at hfull
        omega
      have hts' : ∀ t ∈ ts', t < t1 + W :=
        fun t ht => hbound t (List.mem_append.mpr (Or.inl ht))
      have htB : tB < t1 + W := hbound tB (by simp)
      have hlen' : (1 : Nat) + ts'.length < B := by omega
      have hrun' := runSubmits_no_fire B W ts' ⟨1, some (t1 + W)⟩ (t1 + W)
        rfl hts' hlen'
      have hfire : fireDue B ⟨1 + ts'.length, some (t1 + W)⟩ tB
          = (⟨1 + ts'.length, some (t1 + W)⟩, []) := by
        simp [fireDue, not_le.mpr htB]
      have hreach : B ≤ (1 + ts'.length) + 1 := by omega
      have hsub2 : submitOne B W ⟨1 + ts'.length, some (t1 + W)⟩ tB
          = (⟨1 + ts'.length + 1, some (tB + W)⟩, []) := by
        simp only [submitOne, hfire, hreach, if_true]
      unfold flushTimes
      simp only [runSubmits, hsub1, runSubmits_append, hrun', hsub2,
        List.nil_append, List.append_nil, List.getLastD_concat, if_pos hfull]
  · have hlt : (1 : Nat) + ts.length < B := by omega
    have hrun := runSubmits_no_fire B W ts ⟨1, some (t1 + W)⟩ (t1 + W)
      rfl hbound hlt
    unfold flushTimes
    simp only [runSubmits, hsub1, hrun, List.nil_append, List.append_nil,
      if_neg hfull]

/-- Witness for C4's amended theorem: `batch_size = 2`,
`batch_window = 1`, submits at `0` and `1/2`; the flush fires at `3/2`. -/
theorem batch_flush_after_window_witness :
    (∀ t ∈ [(1 / 2 : ℚ)], t < 0 + 1)
    ∧ flushTimes 2 1 [0, 1 / 2]
      = [(if [(1 / 2 : ℚ)].length + 1 = 2
            then [(1 / 2 : ℚ)].getLastD 0 else 0) + 1] :=
  ⟨by
    intro t ht
    simp only [List.mem_singleton] at ht
    rw [ht]
    norm_num,
   batch_flush_after_window 2 1 0 [1 / 2] (by omega) (by simp)
    (by
      intro t ht
      simp only [List.mem_singleton] at ht
      rw [ht]
      norm_num)⟩

/-- Distribution of a flushed batch's outcome to its waiters, embedding
the tail of `RequestBatcher._process_batch` (src/modules/base.py lines
68-81).  On success the code runs `zip(batch, results)` and resolves each
pending future with the result at its position — waiters beyond the
length of the result list are never resolved (`none`).  On failure every
future in the batch receives the same exception object.  Futures are
assumed not already resolved (`future.done()` is false), i.e. no waiter
was cancelled before the flush. -/
def distributeBatch (batch : List α) (res : Except ε (List β)) :
    List (Option (Except ε β)) :=
  match res with
  | Except.ok results =>
      (batch.zip results).map (fun p => some (Except.ok p.2))
        ++ List.replicate (batch.length - results.length) none
  | Except.error e => batch.map (fun _ => some (Except.error e))

lemma zip_map_snd (f : β → γ) :
    ∀ (batch : List α) (results : List β),
      results.length = batch.length →
      (batch.zip results).map (fun p => f p.2) = results.map f := by
  intro batch
  induction batch with
  | nil =>
      intro results h
      rw [List.length_nil, List.length_eq_zero] at h
      rw [h]
      rfl
  | cons a l ih =>
      intro results h
      cases results with
      | nil => simp at h
      | cons b rs =>
          simp only [List.length_cons, Nat.add_right_cancel_iff] at h
          simp [ih rs h]

/-- C5.  For a flushed batch whose physical call returns one result per
request: each waiter's completion handle is resolved with the element of
the result sequence at the same position as that waiter's request in
submission order; if the physical call fails, every waiter in the batch is
rejected with the same error — no partial outcome. -/
theorem batch_results_in_submission_order {α β ε : Type} (batch : List α)
    (results : List β) (e : ε) (hlen : results.length = batch.length) :
    distributeBatch batch (Except.ok results : Except ε (List β))
      = results.map (fun r => some (Except.ok r))
    ∧ distributeBatch batch (Except.error e : Except ε (List β))
      = List.replicate batch.length (some (Except.error e)) := by
  constructor
  · simp only [distributeBatch, hlen, Nat.sub_self, List.replicate_zero,
      List.append_nil]
    exact zip_map_snd (fun r => some (Except.ok r)) batch results hlen
  · simp [distributeBatch, List.map_const']

/-- Witness for C5: a two-request batch with results `[10, 20]` and a
failing run with error `"boom"`. -/
theorem batch_results_in_submission_order_witness :
    distributeBatch ["a", "b"] (Except.ok [10, 20] : Except String (List Nat))
      = [10, 20].map (fun r => some (Except.ok r))
    ∧ distributeBatch ["a", "b"]
        (Except.error "boom" : Except String (List Nat))
      = List.replicate (["a", "b"].length) (some (Except.error "boom")) :=
  batch_results_in_submission_order ["a", "b"] [10, 20] "boom" rfl

/-- A Python attribute-access error. -/
inductive PyError where
  | attributeError (name : String)
deriving DecidableEq, Repr

/-- The instance attributes assigned by `RepositoryManager.__init__`
(src/modules/repository.py lines 20-24) together with those assigned by
`AsyncHTTPClient.__init__` (src/modules/base.py lines 8-15), which it
calls via `super().__init__`.  No other attribute is ever assigned on a
`RepositoryManager` instance. -/
def repositoryManagerInitAttrs : List String :=
  ["max_retries", "retry_delay", "client", "_cleanup_tasks", "metrics",
   "cache"]

/-- Python attribute lookup: defined attributes resolve, anything else
raises `AttributeError`. -/
def getattrM (attrs : List String) (name : String) : Except PyError Unit :=
  if name ∈ attrs then Except.ok () else Except.error (PyError.attributeError name)

/-- Embeds the second (shadowing) definition of
`RepositoryManager.batch_add_repositories` (src/modules/repository.py
lines 469-479): for each repository it evaluates
`self.request_batcher` and then calls `.add_request(...)` on it,
collecting the futures (numbered in order); the count is the number of
`add_request` submissions actually performed.  An attribute lookup failure
aborts the loop with the exception. -/
def batchAddGo (attrs : List String) : List String → Nat →
    Except PyError (List Nat) × Nat
  | [], k => (Except.ok [], k)
  | _ :: rest, k =>
      match getattrM attrs "request_batcher" with
      | Except.error e => (Except.error e, k)
      | Except.ok _ =>
          match batchAddGo attrs rest (k + 1) with
          | (Except.ok fs, k') => (Except.ok (k :: fs), k')
          | (Except.error e, k') => (Except.error e, k')

/-- The second `batch_add_repositories` (the definition that shadows the
earlier sequential one of the same name in the class body), run on a
repository list. -/
def batchAddRepositoriesV2 (attrs : List String) (repos : List String) :
    Except PyError (List Nat) × Nat :=
  batchAddGo attrs repos 0

/-- C10.  For every non-empty repository list, the batcher-based
`batch_add_repositories` (which shadows the earlier sequential definition)
raises `AttributeError` for `request_batcher` — an attribute
`RepositoryManager.__init__` never creates — before submitting any
request: the error branch is reachable on every call. -/
theorem batch_add_repositories_attribute_error (repos : List String)
    (h : repos ≠ []) :
    (batchAddRepositoriesV2 repositoryManagerInitAttrs repos).1
      = Except.error (PyError.attributeError "request_batcher")
    ∧ (batchAddRepositoriesV2 repositoryManagerInitAttrs repos).2 = 0 := by
  cases repos with
  | nil => exact absurd rfl h
  | cons r rest =>
      have hattr : getattrM repositoryManagerInitAttrs "request_batcher"
          = Except.error (PyError.attributeError "request_batcher") := rfl
      constructor <;>
        simp [batchAddRepositoriesV2, batchAddGo, hattr]

/-- Witness for C10 at the concrete one-element repository list. -/
theorem batch_add_repositories_attribute_error_witness :
    (["https://example.com/repo.git"] : List String) ≠ []
    ∧ (batchAddRepositoriesV2 repositoryManagerInitAttrs
        ["https://example.com/repo.git"]).1
      = Except.error (PyError.attributeError "request_batcher")
    ∧ (batchAddRepositoriesV2 repositoryManagerInitAttrs
        ["https://example.com/repo.git"]).2 = 0 :=
  ⟨List.cons_ne_nil _ _,
   (batch_add_repositories_attribute_error
      ["https://example.com/repo.git"] (List.cons_ne_nil _ _)).1,
   (batch_add_repositories_attribute_error
      ["https://example.com/repo.git"] (List.cons_ne_nil _ _)).2⟩
